import Mathlib

/-!
Shallow embedding of the common-schemas repository: the enum validators
(Network, NFTCategory, PropsCategory) and the Wearable validator with its
semantic cross-field checks (standard XOR third-party, duplicate-locale
rejection), together with an exception-aware evaluation model used to show
that validation never throws.

Values are modelled by a JSON-like inductive type; undefined is modelled
by `Option` (with `none` standing for undefined).  Numbers are modelled as
integers: no numeric field of the validated schemas carries fractional or
NaN semantics.
-/

/-- Runtime JSON-like values.  Objects and arrays are finite literals. -/
inductive Json where
  | null : Json
  | bool : Bool → Json
  | num : Int → Json
  | str : String → Json
  | arr : List Json → Json
  | obj : List (String × Json) → Json

/-- A JavaScript value as a validator sees it: `none` models undefined. -/
abbrev JsVal := Option Json

/-- First-match lookup of a key in an object field list. -/
def objLookup (fs : List (String × Json)) (k : String) : Option Json :=
  match fs with
  | [] => none
  | (k₀, v) :: rest => if k₀ = k then some v else objLookup rest k

/-- Property read `v.k` as a pure projection: undefined unless `v` is an
object carrying the key. -/
def jsGet (v : JsVal) (k : String) : JsVal :=
  match v with
  | some (.obj fs) => objLookup fs k
  | _ => none

/-- Projects an array value to its element list. -/
def jsArr : JsVal → Option (List Json)
  | some (.arr xs) => some xs
  | _ => none

def isStr : Json → Bool
  | .str _ => true
  | _ => false

def isNull : Json → Bool
  | .null => true
  | _ => false

/-- JavaScript truthiness of a value, as in the source expression
`!!collectionAddress`. -/
def jsTruthy : JsVal → Bool
  | none => false
  | some .null => false
  | some (.bool b) => b
  | some (.num n) => n != 0
  | some (.str s) => s != ""
  | some (.arr _) => true
  | some (.obj _) => true

/-- JavaScript strict equality.  Object and array operands compare by
reference in JavaScript; distinct literals of a value embedding are
distinct references, so they compare unequal here. -/
def jsStrictEq : Json → Json → Bool
  | .null, .null => true
  | .bool a, .bool b => a == b
  | .num a, .num b => a == b
  | .str a, .str b => a == b
  | _, _ => false

/-- Strict equality lifted to possibly-undefined values. -/
def jsStrictEqU : JsVal → JsVal → Bool
  | none, none => true
  | some a, some b => jsStrictEq a b
  | _, _ => false

/-- Embeds `wearable.hasOwnProperty(key)` for the keys the validator
passes, which are the merkle-proof hashing keys. -/
def hasOwnProp (w : JsVal) (k : Json) : Bool :=
  match w, k with
  | some (.obj fs), .str s => (objLookup fs s).isSome
  | _, _ => false

/-- Validator produced by the schema-to-validator factory for a closed
string enumeration schema: it accepts exactly the member strings. -/
def enumValidate (values : List String) (v : JsVal) : Bool :=
  match v with
  | some (.str s) => values.contains s
  | _ => false

namespace Network

/-- Enum constants declared in src/dapps/network.ts. -/
def values : List String := ["ETHEREUM", "MATIC", "BSC", "TEST"]

/-- Modelled from the spec: generateValidator (src/validation, not under
src) turns the string-enumeration schema of Network into a membership
predicate over the declared constants. -/
def validate (v : JsVal) : Bool := enumValidate values v

end Network

namespace NFTCategory

/-- Enum constants declared in src/dapps/nft-category.ts. -/
def values : List String :=
  ["parcel", "estate", "wearable", "props", "ens", "emote"]

/-- Modelled from the spec: generated membership validator for the
NFTCategory enumeration schema. -/
def validate (v : JsVal) : Bool := enumValidate values v

end NFTCategory

namespace PropsCategory

/-- Enum constants declared in the PropsCategory source file. -/
def values : List String := ["diamond", "box", "fragments", "vibranium"]

/-- Modelled from the spec: generated membership validator for the
PropsCategory enumeration schema. -/
def validate (v : JsVal) : Bool := enumValidate values v

end PropsCategory

namespace Rarity

/-- Modelled from the spec: the Rarity source file is not under src; the
spec describes it as a closed string enumeration, so representative
constants are used. -/
def values : List String :=
  ["unique", "mythic", "legendary", "epic", "rare", "uncommon", "common"]

/-- Modelled from the spec: generated membership validator for the Rarity
enumeration schema. -/
def validate (v : JsVal) : Bool := enumValidate values v

end Rarity

namespace WearableCategory

/-- Modelled from the spec: the WearableCategory source file is not under
src; the spec describes it as a closed string enumeration, so
representative constants are used. -/
def values : List String :=
  ["eyebrows", "eyes", "facial_hair", "hair", "hat", "helmet", "mouth",
   "upper_body", "lower_body", "feet", "earring", "eyewear", "mask",
   "tiara", "top_head", "skin"]

/-- Modelled from the spec: generated membership validator for the
WearableCategory enumeration schema. -/
def validate (v : JsVal) : Bool := enumValidate values v

end WearableCategory

namespace I18N

/-- Modelled from the spec: the I18N source file is not under src; the
spec describes localization entries as keyed by a locale code with text,
so the schema requires an object with string fields code and text. -/
def validate (v : JsVal) : Bool :=
  match v with
  | some (.obj fs) =>
    (match objLookup fs "code" with | some (.str _) => true | _ => false) &&
    (match objLookup fs "text" with | some (.str _) => true | _ => false)
  | _ => false

end I18N

namespace WearableRepresentation

/-- Modelled from the spec: the representation source file is not under
src and the spec constrains representations only as entries of a list, so
the schema requires an object. -/
def validate (v : JsVal) : Bool :=
  match v with
  | some (.obj _) => true
  | _ => false

end WearableRepresentation

namespace Metrics

/-- Modelled from the spec: the Metrics source file is not under src and
the spec lists metrics only as an optional field, so the schema requires
an object. -/
def validate (v : JsVal) : Bool :=
  match v with
  | some (.obj _) => true
  | _ => false

end Metrics

namespace MerkleProof

/-- Modelled from the spec: the merkle-tree source file is not under src;
the spec describes a merkle proof structurally as a sequence of hash
values (proof, strings) plus named hashing keys (strings). -/
def validate (v : JsVal) : Bool :=
  match v with
  | some (.obj fs) =>
    (match objLookup fs "hashingKeys" with
     | some (.arr ks) => ks.all isStr
     | _ => false) &&
    (match objLookup fs "proof" with
     | some (.arr ps) => ps.all isStr
     | _ => false)
  | _ => false

end MerkleProof

/-- Embeds validateThirdParty from the Wearable source file: structural
merkle-proof validation, then non-empty hashing keys, every hashing key an
own property of the wearable, and a non-empty proof. -/
def validateThirdParty (wearable : JsVal) : Bool :=
  let mp := jsGet wearable "merkleProof"
  if !(MerkleProof.validate mp) then false
  else
    let hashingKeys := (jsArr (jsGet mp "hashingKeys")).getD []
    if hashingKeys.length == 0 then false
    else
      let containsAllKeys := hashingKeys.all (fun key => hasOwnProp wearable key)
      let proofIsNotEmpty := decide (0 < ((jsArr (jsGet mp "proof")).getD []).length)
      containsAllKeys && proofIsNotEmpty

/-- Embeds validateStandardWearable from the Wearable source file. -/
def validateStandardWearable (rarity collectionAddress : JsVal) : Bool :=
  Rarity.validate rarity && jsTruthy collectionAddress

/-- Embeds the exported type guard isStandard. -/
def isStandard (wearable : JsVal) : Bool :=
  validateStandardWearable (jsGet wearable "rarity") (jsGet wearable "collectionAddress")

/-- Embeds the exported type guard isThirdParty. -/
def isThirdParty (wearable : JsVal) : Bool :=
  validateThirdParty wearable

/-- Reads the code field of an i18n entry, as the duplicate-locale check
does. -/
def codeOf (e : Json) : JsVal := jsGet (some e) "code"

/-- Array findIndex scanning from index `i`; `none` stands for the
JavaScript result -1. -/
def jsFindIndexGo (p : Json → Bool) : ℕ → List Json → Option ℕ
  | _, [] => none
  | i, e :: rest => if p e then some i else jsFindIndexGo p (i + 1) rest

/-- Embeds Array.prototype.findIndex. -/
def jsFindIndex (p : Json → Bool) (l : List Json) : Option ℕ :=
  jsFindIndexGo p 0 l

/-- Array every with the element index, scanning from index `i`. -/
def everyIdxGo (f : ℕ → Json → Bool) : ℕ → List Json → Bool
  | _, [] => true
  | i, e :: rest => f i e && everyIdxGo f (i + 1) rest

/-- Embeds Array.prototype.every with the index argument. -/
def everyIdx (f : ℕ → Json → Bool) (l : List Json) : Bool :=
  everyIdxGo f 0 l

/-- Embeds validateDuplicatedLocales: every entry must be the first entry
carrying its locale code. -/
def validateDuplicatedLocales (i18ns : List Json) : Bool :=
  everyIdx
    (fun index e =>
      jsFindIndex (fun e2 => jsStrictEqU (codeOf e2) (codeOf e)) i18ns == some index)
    i18ns

/-- Required string field of the Wearable schema. -/
def reqStr (fs : List (String × Json)) (k : String) : Bool :=
  match objLookup fs k with
  | some (.str _) => true
  | _ => false

/-- Optional (possibly nullable) field: absent fields pass, present
fields must satisfy the field schema. -/
def optOk (fs : List (String × Json)) (k : String) (p : Json → Bool) : Bool :=
  match objLookup fs k with
  | none => true
  | some v => p v

/-- The five declared property names of the data block. -/
def dataKeys : List String :=
  ["replaces", "hides", "tags", "representations", "category"]

/-- Field schema of the data block from Wearable.schema: all five
properties required, category arrays over WearableCategory, non-empty
tag strings, at least one representation, and no additional properties. -/
def validData : Json → Bool
  | .obj fs =>
    (match objLookup fs "replaces" with
     | some (.arr xs) => xs.all (fun x => WearableCategory.validate (some x))
     | _ => false) &&
    (match objLookup fs "hides" with
     | some (.arr xs) => xs.all (fun x => WearableCategory.validate (some x))
     | _ => false) &&
    (match objLookup fs "tags" with
     | some (.arr xs) => xs.all (fun x => match x with | .str s => s.length != 0 | _ => false)
     | _ => false) &&
    (match objLookup fs "representations" with
     | some (.arr xs) =>
       (xs.length != 0) && xs.all (fun x => WearableRepresentation.validate (some x))
     | _ => false) &&
    (match objLookup fs "category" with
     | some c => WearableCategory.validate (some c)
     | none => false) &&
    fs.all (fun kv => dataKeys.contains kv.1)
  | _ => false

/-- Field schema of the optional content record: null or an object whose
values are all strings. -/
def contentOk (v : Json) : Bool :=
  isNull v ||
    (match v with
     | .obj cfs => cfs.all (fun kv => isStr kv.2)
     | _ => false)

/-- Minimum-one array of I18N entries, from Wearable.schema. -/
def i18nCheck (fs : List (String × Json)) : Bool :=
  match objLookup fs "i18n" with
  | some (.arr xs) => (xs.length != 0) && xs.all (fun x => I18N.validate (some x))
  | _ => false

/-- Required data block of Wearable.schema. -/
def dataCheck (fs : List (String × Json)) : Bool :=
  match objLookup fs "data" with
  | some d => validData d
  | none => false

/-- Conjunction of the per-field constraints of Wearable.schema on an
object field list: required string fields, i18n, data, and the nullable
optional fields.  The top level allows additional properties. -/
def wearableSchemaFields (fs : List (String × Json)) : Bool :=
  reqStr fs "id" && reqStr fs "description" && reqStr fs "name" &&
  reqStr fs "thumbnail" && reqStr fs "image" &&
  i18nCheck fs && dataCheck fs &&
  optOk fs "collectionAddress" (fun v => isStr v || isNull v) &&
  optOk fs "rarity" (fun v => isNull v || Rarity.validate (some v)) &&
  optOk fs "metrics" (fun v => isNull v || Metrics.validate (some v)) &&
  optOk fs "merkleProof" (fun v => isNull v || MerkleProof.validate (some v)) &&
  optOk fs "content" contentOk

/-- Modelled from the spec: generateValidator (src/validation, not under
src) compiles the Wearable.schema literal of the source into a structural
predicate checking required fields, field types, nullability, enum
membership, minimum array lengths, and the closed data block.  The
displayable property fragment (shared/displayable, also not under src)
adds no constraint named by the spec beyond the explicitly declared
fields. -/
def wearableSchemaValidator (w : JsVal) : Bool :=
  match w with
  | some (.obj fs) => wearableSchemaFields fs
  | _ => false

/-- Embeds the local XOR helper of the Wearable source file. -/
def XOR (b1 b2 : Bool) : Bool := (b1 && !b2) || (b2 && !b1)

namespace Wearable

/-- Embeds Wearable.validate: structural schema validation, then the
duplicate-locale check on i18n, then exactly one of the standard and
third-party checks. -/
def validate (wearable : JsVal) : Bool :=
  wearableSchemaValidator wearable &&
  validateDuplicatedLocales ((jsArr (jsGet wearable "i18n")).getD []) &&
  XOR (validateStandardWearable (jsGet wearable "rarity") (jsGet wearable "collectionAddress"))
      (validateThirdParty wearable)

end Wearable

/-! Concrete values used by witnesses and counterexamples. -/

/-- A well-formed i18n entry. -/
def exI18n : Json := .obj [("code", .str "en"), ("text", .str "hello")]

/-- A well-formed representation entry. -/
def exRep : Json :=
  .obj [("bodyShapes", .arr [.str "male"]), ("mainFile", .str "f.glb"),
        ("contents", .arr [.str "f.glb"])]

/-- A well-formed data block. -/
def exData : Json :=
  .obj [("replaces", .arr []), ("hides", .arr []), ("tags", .arr []),
        ("representations", .arr [exRep]), ("category", .str "hat")]

/-- Field list of a valid standard wearable. -/
def exStdFields : List (String × Json) :=
  [("id", .str "urn:wearable:1"), ("description", .str "d"), ("name", .str "n"),
   ("thumbnail", .str "thumb.png"), ("image", .str "img.png"),
   ("i18n", .arr [exI18n]), ("data", exData),
   ("rarity", .str "common"), ("collectionAddress", .str "0xabc")]

/-- A valid standard wearable. -/
def exStd : JsVal := some (.obj exStdFields)

/-- A standard wearable that also carries a content record. -/
def exCex : JsVal :=
  some (.obj (exStdFields ++ [("content", .obj [("f.glb", .str "qmHash")])]))

/-- A structurally valid merkle proof whose only hashing key is the
property name content. -/
def exMerkleTrap : Json :=
  .obj [("hashingKeys", .arr [.str "content"]), ("proof", .arr [.str "h1"])]

/-- Field list of a standard wearable carrying `exMerkleTrap`. -/
def exTrapFields : List (String × Json) :=
  exStdFields ++ [("merkleProof", exMerkleTrap)]

/-- A standard wearable carrying a merkle proof that refers to the absent
content property. -/
def exTrap : JsVal := some (.obj exTrapFields)

/-- A valid third-party wearable. -/
def exTp : JsVal :=
  some (.obj
    [("id", .str "urn:tp:1"), ("description", .str "d"), ("name", .str "n"),
     ("thumbnail", .str "thumb.png"), ("image", .str "img.png"),
     ("i18n", .arr [exI18n]), ("data", exData),
     ("merkleProof", .obj [("hashingKeys", .arr [.str "id", .str "name"]),
                           ("proof", .arr [.str "h1", .str "h2"])])])

/-- The i18n list with a duplicated locale code. -/
def exDupI18n : List Json :=
  [exI18n, .obj [("code", .str "en"), ("text", .str "hola")]]

/-- A wearable whose i18n list duplicates the locale code en. -/
def exDup : JsVal :=
  some (.obj
    [("id", .str "urn:wearable:2"), ("description", .str "d"), ("name", .str "n"),
     ("thumbnail", .str "thumb.png"), ("image", .str "img.png"),
     ("i18n", .arr exDupI18n), ("data", exData),
     ("rarity", .str "common"), ("collectionAddress", .str "0xabc")])

/-! Basic characterization lemmas. -/

lemma enumValidate_spec (vals : List String) (v : JsVal) :
    enumValidate vals v = true ↔ ∃ s, v = some (Json.str s) ∧ s ∈ vals := by
  cases v with
  | none => simp [enumValidate]
  | some j => cases j <;> simp [enumValidate, List.elem_iff]

lemma XOR_eq_true (b1 b2 : Bool) :
    XOR b1 b2 = true ↔ (b1 = true ∧ b2 = false) ∨ (b1 = false ∧ b2 = true) := by
  cases b1 <;> cases b2 <;> simp [XOR]

lemma jsStrictEqU_of_str (s : String) (b : JsVal) :
    jsStrictEqU (some (Json.str s)) b = true ↔ b = some (Json.str s) := by
  cases b with
  | none => simp [jsStrictEqU]
  | some j =>
    cases j <;> simp [jsStrictEqU, jsStrictEq]
    exact ⟨fun h => h.symm, fun h => h.symm⟩

lemma objLookup_append_of_ne (fs : List (String × Json)) (k k₀ : String) (v : Json)
    (h : k ≠ k₀) : objLookup (fs ++ [(k₀, v)]) k = objLookup fs k := by
  induction fs with
  | nil => simp [objLookup, Ne.symm h]
  | cons kv rest ih =>
    obtain ⟨k₁, v₁⟩ := kv
    by_cases hk : k₁ = k
    · simp [objLookup, hk]
    · simp [objLookup, hk, ih]

lemma objLookup_append_self (fs : List (String × Json)) (k : String) (v : Json)
    (h : objLookup fs k = none) : objLookup (fs ++ [(k, v)]) k = some v := by
  induction fs with
  | nil => simp [objLookup]
  | cons kv rest ih =>
    obtain ⟨k₁, v₁⟩ := kv
    by_cases hk : k₁ = k
    · simp [objLookup, hk] at h
    · simp [objLookup, hk] at h ⊢
      exact ih h

lemma MerkleProof.validate_spec (v : JsVal) :
    MerkleProof.validate v = true ↔
      ∃ gs ks ps, v = some (Json.obj gs) ∧
        objLookup gs "hashingKeys" = some (Json.arr ks) ∧ (∀ k ∈ ks, isStr k = true) ∧
        objLookup gs "proof" = some (Json.arr ps) ∧ (∀ x ∈ ps, isStr x = true) := by
  constructor
  · intro h
    match v with
    | none => simp [MerkleProof.validate] at h
    | some (.obj gs) =>
      rw [MerkleProof.validate, Bool.and_eq_true] at h
      obtain ⟨h1, h2⟩ := h
      split at h1
      next ks hk =>
        split at h2
        next ps hp =>
          exact ⟨gs, ks, ps, rfl, hk, List.all_eq_true.mp h1, hp, List.all_eq_true.mp h2⟩
        next => simp at h2
      next => simp at h1
    | some .null | some (.bool _) | some (.num _) | some (.str _) | some (.arr _) =>
      simp [MerkleProof.validate] at h
  · rintro ⟨gs, ks, ps, rfl, hk, hks, hp, hps⟩
    rw [MerkleProof.validate, hk, hp, Bool.and_eq_true]
    exact ⟨List.all_eq_true.mpr hks, List.all_eq_true.mpr hps⟩

lemma I18N.code_str (e : Json) (h : I18N.validate (some e) = true) :
    ∃ s, codeOf e = some (Json.str s) := by
  match e with
  | .obj fs =>
    rw [I18N.validate, Bool.and_eq_true] at h
    obtain ⟨h1, _⟩ := h
    split at h1
    next s hc => exact ⟨s, by simp [codeOf, jsGet, hc]⟩
    next => simp at h1
  | .null | .bool _ | .num _ | .str _ | .arr _ => simp [I18N.validate] at h


/-! Characterizations of the findIndex and every helpers. -/

lemma jsFindIndexGo_bound (p : Json → Bool) :
    ∀ (l : List Json) (i j : ℕ), jsFindIndexGo p i l = some j → i ≤ j := by
  intro l
  induction l with
  | nil => intro i j h; simp [jsFindIndexGo] at h
  | cons e rest ih =>
    intro i j h
    rw [jsFindIndexGo] at h
    by_cases hp : p e = true
    · rw [if_pos hp] at h
      exact le_of_eq (Option.some.inj h)
    · rw [if_neg hp] at h
      have := ih (i + 1) j h
      omega

lemma jsFindIndexGo_le_of_found (p : Json → Bool) :
    ∀ (l : List Json) (i a : ℕ) (ha : a < l.length),
      p (l.get ⟨a, ha⟩) = true → ∃ j, jsFindIndexGo p i l = some j ∧ j ≤ i + a := by
  intro l
  induction l with
  | nil => intro i a ha; simp at ha
  | cons e rest ih =>
    intro i a ha hpa
    rw [jsFindIndexGo]
    by_cases hp : p e = true
    · exact ⟨i, by rw [if_pos hp], by omega⟩
    · rw [if_neg hp]
      cases a with
      | zero => exact absurd (by simpa using hpa) hp
      | succ a1 =>
        obtain ⟨j, hj, hle⟩ :=
          ih (i + 1) a1 (by simpa using Nat.succ_lt_succ_iff.mp (by simpa using ha))
            (by simpa using hpa)
        exact ⟨j, hj, by omega⟩

lemma jsFindIndexGo_eq_of_first (p : Json → Bool) :
    ∀ (l : List Json) (i k : ℕ) (hk : k < l.length),
      (∀ m (hm : m < l.length), m < k → p (l.get ⟨m, hm⟩) = false) →
      p (l.get ⟨k, hk⟩) = true → jsFindIndexGo p i l = some (i + k) := by
  intro l
  induction l with
  | nil => intro i k hk; simp at hk
  | cons e rest ih =>
    intro i k hk hfirst hpk
    rw [jsFindIndexGo]
    cases k with
    | zero =>
      have hpe : p e = true := by simpa using hpk
      rw [if_pos hpe]
      simp
    | succ k1 =>
      have hpe : p e = false := hfirst 0 (by simp) (by omega)
      rw [if_neg (by simp [hpe])]
      have hk1 : k1 < rest.length := by simpa using Nat.succ_lt_succ_iff.mp (by simpa using hk)
      have hres : jsFindIndexGo p (i + 1) rest = some ((i + 1) + k1) :=
        ih (i + 1) k1 hk1
          (fun m hm hmk => by
            have := hfirst (m + 1) (by simpa using Nat.succ_lt_succ hm) (by omega)
            simpa using this)
          (by simpa using hpk)
      rw [hres]
      congr 1
      omega

lemma everyIdxGo_eq_true (f : ℕ → Json → Bool) :
    ∀ (l : List Json) (i : ℕ),
      everyIdxGo f i l = true ↔ ∀ j (h : j < l.length), f (i + j) (l.get ⟨j, h⟩) = true := by
  intro l
  induction l with
  | nil => intro i; simp [everyIdxGo]
  | cons e rest ih =>
    intro i
    rw [everyIdxGo, Bool.and_eq_true, ih (i + 1)]
    constructor
    · rintro ⟨h0, hrest⟩ j hj
      cases j with
      | zero => simpa using h0
      | succ j1 =>
        have hj1 : j1 < rest.length := by simpa using Nat.succ_lt_succ_iff.mp (by simpa using hj)
        have := hrest j1 hj1
        rw [show i + 1 + j1 = i + (j1 + 1) by omega] at this
        simpa using this
    · intro h
      refine ⟨by simpa using h 0 (by simp), fun j hj => ?_⟩
      have := h (j + 1) (by simpa using Nat.succ_lt_succ hj)
      rw [show i + (j + 1) = i + 1 + j by omega] at this
      simpa using this

/-- The duplicate-locale check succeeds exactly when the locale codes are
pairwise distinct, whenever every entry carries a string code. -/
lemma validateDuplicatedLocales_iff_nodup (l : List Json)
    (hstr : ∀ e ∈ l, ∃ s, codeOf e = some (Json.str s)) :
    validateDuplicatedLocales l = true ↔ (l.map codeOf).Nodup := by
  rw [validateDuplicatedLocales, everyIdx, everyIdxGo_eq_true]
  simp only [Nat.zero_add]
  rw [List.nodup_iff_getElem?_ne_getElem?]
  constructor
  · intro h i j hij hjl
    have hjl2 : j < l.length := by simpa using hjl
    have hil : i < l.length := lt_trans hij hjl2
    intro hcontra
    have hci : (l.map codeOf)[i]? = some (codeOf (l.get ⟨i, hil⟩)) := by
      simp [List.getElem?_eq_getElem hil]
    have hcj : (l.map codeOf)[j]? = some (codeOf (l.get ⟨j, hjl2⟩)) := by
      simp [List.getElem?_eq_getElem hjl2]
    rw [hci, hcj] at hcontra
    have hceq : codeOf (l.get ⟨i, hil⟩) = codeOf (l.get ⟨j, hjl2⟩) := Option.some.inj hcontra
    have hcheck := h j hjl2
    rw [beq_iff_eq, jsFindIndex] at hcheck
    obtain ⟨s, hs⟩ := hstr (l.get ⟨j, hjl2⟩) (l.get_mem _ _)
    have hpi : (fun e2 => jsStrictEqU (codeOf e2) (codeOf (l.get ⟨j, hjl2⟩)))
        (l.get ⟨i, hil⟩) = true := by
      simp only []
      rw [hceq, hs]
      exact (jsStrictEqU_of_str s _).mpr rfl
    obtain ⟨j0, hj0, hle⟩ :=
      jsFindIndexGo_le_of_found
        (fun e2 => jsStrictEqU (codeOf e2) (codeOf (l.get ⟨j, hjl2⟩))) l 0 i hil hpi
    rw [hcheck] at hj0
    have : j = j0 := Option.some.inj hj0
    omega
  · intro hnod j hj
    rw [beq_iff_eq, jsFindIndex]
    obtain ⟨sj, hsj⟩ := hstr (l.get ⟨j, hj⟩) (l.get_mem _ _)
    have hres :=
      jsFindIndexGo_eq_of_first
        (fun e2 => jsStrictEqU (codeOf e2) (codeOf (l.get ⟨j, hj⟩))) l 0 j hj
        (fun m hm hmj => by
          obtain ⟨sm, hsm⟩ := hstr (l.get ⟨m, hm⟩) (l.get_mem _ _)
          have hne := hnod m j hmj (by simpa using hj)
          rw [List.getElem?_map, List.getElem?_map, List.getElem?_eq_getElem hm,
            List.getElem?_eq_getElem hj] at hne
          have hne2 : codeOf (l.get ⟨m, hm⟩) ≠ codeOf (l.get ⟨j, hj⟩) := by
            intro hc
            apply hne
            simp only [Option.map_some', List.get_eq_getElem] at hc ⊢
            rw [hc]
          simp only []
          rw [hsm]
          rw [Bool.eq_false_iff]
          intro hc
          exact hne2 (by rw [hsm, (jsStrictEqU_of_str sm _).mp hc])
        )
        (by
          simp only []
          rw [hsj]
          exact (jsStrictEqU_of_str sj _).mpr rfl)
    simpa using hres

/-! Extraction lemmas for the structural schema validator. -/

lemma wearableSchemaValidator_spec (w : JsVal) :
    wearableSchemaValidator w = true ↔
      ∃ fs, w = some (Json.obj fs) ∧ wearableSchemaFields fs = true := by
  cases w with
  | none => simp [wearableSchemaValidator]
  | some j => cases j <;> simp [wearableSchemaValidator]

lemma wearableSchemaFields_parts (fs : List (String × Json))
    (h : wearableSchemaFields fs = true) :
    reqStr fs "id" = true ∧ reqStr fs "description" = true ∧ reqStr fs "name" = true ∧
    reqStr fs "thumbnail" = true ∧ reqStr fs "image" = true ∧
    i18nCheck fs = true ∧ dataCheck fs = true ∧
    optOk fs "collectionAddress" (fun v => isStr v || isNull v) = true ∧
    optOk fs "rarity" (fun v => isNull v || Rarity.validate (some v)) = true ∧
    optOk fs "metrics" (fun v => isNull v || Metrics.validate (some v)) = true ∧
    optOk fs "merkleProof" (fun v => isNull v || MerkleProof.validate (some v)) = true ∧
    optOk fs "content" contentOk = true := by
  rw [wearableSchemaFields] at h
  simp only [Bool.and_eq_true] at h
  tauto

lemma i18nCheck_spec (fs : List (String × Json)) (h : i18nCheck fs = true) :
    ∃ xs, objLookup fs "i18n" = some (Json.arr xs) ∧ xs ≠ [] ∧
      ∀ e ∈ xs, I18N.validate (some e) = true := by
  rw [i18nCheck] at h
  split at h
  next xs heq =>
    rw [Bool.and_eq_true] at h
    refine ⟨xs, heq, ?_, List.all_eq_true.mp h.2⟩
    intro hc
    subst hc
    simp at h
  next => simp at h

lemma dataCheck_spec (fs : List (String × Json)) (h : dataCheck fs = true) :
    ∃ dfs, objLookup fs "data" = some (Json.obj dfs) ∧
      (∃ reps, objLookup dfs "representations" = some (Json.arr reps) ∧ reps ≠ []) ∧
      ∀ kv ∈ dfs, kv.1 ∈ dataKeys := by
  rw [dataCheck] at h
  split at h
  next d heq =>
    match d with
    | .obj dfs =>
      rw [validData] at h
      simp only [Bool.and_eq_true] at h
      obtain ⟨⟨⟨⟨⟨-, -⟩, -⟩, hreps⟩, -⟩, hkeys⟩ := h
      refine ⟨dfs, heq, ?_, ?_⟩
      · split at hreps
        next xs heq2 =>
          rw [Bool.and_eq_true] at hreps
          refine ⟨xs, heq2, ?_⟩
          intro hc
          subst hc
          simp at hreps
        next => simp at hreps
      · intro kv hkv
        have := List.all_eq_true.mp hkeys kv hkv
        exact List.elem_iff.mp this
    | .null | .bool _ | .num _ | .str _ | .arr _ => simp [validData] at h
  next => simp at h

lemma optOk_spec (fs : List (String × Json)) (k : String) (p : Json → Bool)
    (h : optOk fs k p = true) :
    objLookup fs k = none ∨ ∃ v, objLookup fs k = some v ∧ p v = true := by
  rw [optOk] at h
  split at h
  next heq => exact Or.inl heq
  next v heq => exact Or.inr ⟨v, heq, h⟩

/-- Under the schema, collectionAddress is absent, null, or a string. -/
lemma ca_shape_of_fields (fs : List (String × Json))
    (h : wearableSchemaFields fs = true) :
    objLookup fs "collectionAddress" = none ∨
    objLookup fs "collectionAddress" = some Json.null ∨
    ∃ s, objLookup fs "collectionAddress" = some (Json.str s) := by
  obtain ⟨-, -, -, -, -, -, -, hca, -⟩ := wearableSchemaFields_parts fs h
  rcases optOk_spec _ _ _ hca with hnone | ⟨v, hv, hp⟩
  · exact Or.inl hnone
  · match v with
    | .null => exact Or.inr (Or.inl hv)
    | .str s => exact Or.inr (Or.inr ⟨s, hv⟩)
    | .bool _ | .num _ | .arr _ | .obj _ => simp [isStr, isNull] at hp

/-- Entries of a schema-valid i18n list all carry string codes. -/
lemma codes_str_of_fields (fs : List (String × Json)) (xs : List Json)
    (h : wearableSchemaFields fs = true)
    (hxs : objLookup fs "i18n" = some (Json.arr xs)) :
    ∀ e ∈ xs, ∃ s, codeOf e = some (Json.str s) := by
  obtain ⟨-, -, -, -, -, hi, -⟩ := wearableSchemaFields_parts fs h
  obtain ⟨ys, hys, -, hall⟩ := i18nCheck_spec fs hi
  rw [hxs] at hys
  obtain rfl : ys = xs := by
    have := Option.some.inj hys
    exact (Json.arr.inj this).symm
  intro e he
  exact I18N.code_str e (hall e he)

/-! Characterization of the third-party check. -/

lemma validateThirdParty_spec (w : JsVal) :
    validateThirdParty w = true ↔
      ∃ gs ks ps, jsGet w "merkleProof" = some (Json.obj gs) ∧
        objLookup gs "hashingKeys" = some (Json.arr ks) ∧ (∀ k ∈ ks, isStr k = true) ∧
        objLookup gs "proof" = some (Json.arr ps) ∧ (∀ x ∈ ps, isStr x = true) ∧
        ks ≠ [] ∧ (∀ k ∈ ks, hasOwnProp w k = true) ∧ ps ≠ [] := by
  by_cases hm : MerkleProof.validate (jsGet w "merkleProof") = true
  · obtain ⟨gs, ks, ps, hmp, hk, hks, hp, hps⟩ := (MerkleProof.validate_spec _).mp hm
    rw [validateThirdParty]
    simp only [hm, Bool.not_true, Bool.false_eq_true, if_false]
    have harrk : (jsArr (jsGet (jsGet w "merkleProof") "hashingKeys")).getD [] = ks := by
      rw [hmp]
      simp [jsGet, hk, jsArr]
    have harrp : (jsArr (jsGet (jsGet w "merkleProof") "proof")).getD [] = ps := by
      rw [hmp]
      simp [jsGet, hp, jsArr]
    rw [harrk, harrp]
    by_cases hk0 : ks.length = 0
    · simp only [hk0, beq_self_eq_true, if_true]
      constructor
      · intro hc; exact absurd hc (by simp)
      · rintro ⟨gs2, ks2, ps2, hmp2, hk2, -, -, -, hne2, -⟩
        rw [hmp] at hmp2
        obtain rfl : gs2 = gs := (Json.obj.inj (Option.some.inj hmp2)).symm
        rw [hk] at hk2
        obtain rfl : ks2 = ks := (Json.arr.inj (Option.some.inj hk2)).symm
        exact absurd (List.length_eq_zero.mp hk0) hne2
    · have : (ks.length == 0) = false := by simpa using hk0
      rw [this]
      simp only [Bool.false_eq_true, if_false, Bool.and_eq_true, List.all_eq_true,
        decide_eq_true_eq]
      constructor
      · rintro ⟨hall, hlen⟩
        exact ⟨gs, ks, ps, hmp, hk, hks, hp, hps,
          fun hc => hk0 (by rw [hc]; rfl), hall,
          fun hc => by rw [hc] at hlen; simp at hlen⟩
      · rintro ⟨gs2, ks2, ps2, hmp2, hk2, -, hp2, -, -, hall2, hpne2⟩
        rw [hmp] at hmp2
        obtain rfl : gs2 = gs := (Json.obj.inj (Option.some.inj hmp2)).symm
        rw [hk] at hk2
        obtain rfl : ks2 = ks := (Json.arr.inj (Option.some.inj hk2)).symm
        rw [hp] at hp2
        obtain rfl : ps2 = ps := (Json.arr.inj (Option.some.inj hp2)).symm
        exact ⟨hall2, List.length_pos.mpr hpne2⟩
  · rw [validateThirdParty]
    have hmf : MerkleProof.validate (jsGet w "merkleProof") = false := by simpa using hm
    simp only [hmf, Bool.not_false, if_true]
    constructor
    · intro hc; exact absurd hc (by simp)
    · rintro ⟨gs, ks, ps, hmp, hk, hks, hp, hps, -⟩
      exact absurd ((MerkleProof.validate_spec _).mpr ⟨gs, ks, ps, hmp, hk, hks, hp, hps⟩) hm

/-! Exception-aware evaluation model: property reads follow JavaScript
error semantics, so the absence of a thrown error is provable. -/

/-- Property access with JavaScript error semantics: reading a property
of undefined or null throws; other primitive receivers yield undefined
for the data keys this code reads. -/
def getPropE (v : JsVal) (k : String) : Except Unit JsVal :=
  match v with
  | none => .error ()
  | some .null => .error ()
  | some (.obj fs) => .ok (objLookup fs k)
  | some _ => .ok none

/-- Reads the length property with JavaScript error semantics. -/
def getLengthE (v : JsVal) : Except Unit JsVal :=
  match v with
  | none => .error ()
  | some .null => .error ()
  | some (.arr xs) => .ok (some (.num xs.length))
  | some (.str s) => .ok (some (.num s.length))
  | some _ => .ok none

/-- Numeric greater-than-zero comparison as JavaScript evaluates the
expression proof.length > 0. -/
def jsGtZero : JsVal → Bool
  | some (.num n) => decide (0 < n)
  | _ => false

/-- Exception-aware validateThirdParty, mirroring the evaluation order of
the source: merkle-proof guard, hashing-keys length, every over the keys,
proof length. -/
def validateThirdPartyE (wearable : JsVal) : Except Unit Bool := do
  let mp ← getPropE wearable "merkleProof"
  if !(MerkleProof.validate mp) then return false
  else
    let hk ← getPropE mp "hashingKeys"
    let hkLen ← getLengthE hk
    if jsStrictEqU hkLen (some (.num 0)) then return false
    else
      match hk with
      | some (.arr ks) =>
        let containsAllKeys := ks.all (fun key => hasOwnProp wearable key)
        let pf ← getPropE mp "proof"
        let pfLen ← getLengthE pf
        return (containsAllKeys && jsGtZero pfLen)
      | _ => .error ()

/-- Exception-aware findIndex whose predicate may throw. -/
def jsFindIndexE (p : Json → Except Unit Bool) : ℕ → List Json → Except Unit (Option ℕ)
  | _, [] => .ok none
  | i, e :: rest => do
    let b ← p e
    if b then return (some i) else jsFindIndexE p (i + 1) rest

/-- Exception-aware every of the duplicate-locale check: each entry is
destructured for its code (throws on a null entry) and the list is
scanned with findIndex. -/
def dupGoE (i18ns : List Json) : ℕ → List Json → Except Unit Bool
  | _, [] => .ok true
  | i, e :: rest => do
    let c ← getPropE (some e) "code"
    let fi ← jsFindIndexE
        (fun e2 => do
          let c2 ← getPropE (some e2) "code"
          return jsStrictEqU c2 c) 0 i18ns
    if fi == some i then dupGoE i18ns (i + 1) rest else return false

/-- Exception-aware validateDuplicatedLocales: calling every on a
non-array receiver throws. -/
def validateDuplicatedLocalesE (v : JsVal) : Except Unit Bool :=
  match v with
  | some (.arr xs) => dupGoE xs 0 xs
  | _ => .error ()

/-- Exception-aware Wearable.validate, mirroring the evaluation order and
short-circuiting of the source expression. -/
def validateE (wearable : JsVal) : Except Unit Bool := do
  if !(wearableSchemaValidator wearable) then return false
  else
    let i18n ← getPropE wearable "i18n"
    let d ← validateDuplicatedLocalesE i18n
    if !d then return false
    else
      let r ← getPropE wearable "rarity"
      let ca ← getPropE wearable "collectionAddress"
      let tp ← validateThirdPartyE wearable
      return XOR (validateStandardWearable r ca) tp

/-! Correspondence of the exception-aware model with the pure model. -/

lemma exceptOkBind {α β : Type} (a : α) (f : α → Except Unit β) :
    (Except.ok a >>= f : Except Unit β) = f a := rfl

lemma exceptPureOk {β : Type} (a : β) : (pure a : Except Unit β) = Except.ok a := rfl

lemma getPropE_nonnull (e : Json) (h : isNull e = false) (k : String) :
    getPropE (some e) k = .ok (jsGet (some e) k) := by
  cases e <;> simp_all [getPropE, jsGet, isNull]

lemma jsFindIndexE_ok (p : Json → Bool) (pE : Json → Except Unit Bool)
    (l : List Json) (hl : ∀ e ∈ l, pE e = .ok (p e)) :
    ∀ i, jsFindIndexE pE i l = .ok (jsFindIndexGo p i l) := by
  induction l with
  | nil => intro i; rfl
  | cons e rest ih =>
    intro i
    have hpe : pE e = .ok (p e) := hl e (by simp)
    rw [jsFindIndexE, jsFindIndexGo, hpe]
    cases hp : p e with
    | true => simp [exceptOkBind, exceptPureOk, hp]
    | false =>
      simp only [exceptOkBind, hp, Bool.false_eq_true, if_false]
      exact ih (fun e2 he2 => hl e2 (by simp [he2])) (i + 1)

lemma dupGoE_ok (i18ns : List Json) (hall : ∀ e ∈ i18ns, isNull e = false) :
    ∀ (rest : List Json), (∀ e ∈ rest, isNull e = false) → ∀ (i : ℕ),
      dupGoE i18ns i rest =
        .ok (everyIdxGo (fun index e =>
          jsFindIndex (fun e2 => jsStrictEqU (codeOf e2) (codeOf e)) i18ns == some index)
          i rest) := by
  intro rest
  induction rest with
  | nil => intro _ i; rfl
  | cons e rest ih =>
    intro hr i
    have he : isNull e = false := hr e (by simp)
    rw [dupGoE, everyIdxGo, getPropE_nonnull e he "code"]
    have hfind := jsFindIndexE_ok
      (fun e2 => jsStrictEqU (codeOf e2) (codeOf e))
      (fun e2 => do
        let c2 ← getPropE (some e2) "code"
        return jsStrictEqU c2 (codeOf e))
      i18ns
      (fun e2 he2 => by
        simp only [getPropE_nonnull e2 (hall e2 he2) "code", exceptOkBind]
        rfl)
      0
    simp only [exceptOkBind]
    rw [show (jsGet (some e) "code") = codeOf e from rfl, hfind]
    simp only [exceptOkBind, jsFindIndex]
    cases hfi : (jsFindIndexGo (fun e2 => jsStrictEqU (codeOf e2) (codeOf e)) 0 i18ns
        == some i) with
    | true => simp [hfi, exceptPureOk, jsFindIndex, ih (fun e2 he2 => hr e2 (by simp [he2])) (i + 1)]
    | false => simp [hfi, exceptPureOk]

lemma jsStrictEqU_num_zero (n : ℕ) :
    jsStrictEqU (some (Json.num n)) (some (Json.num 0)) = (n == 0) := by
  by_cases h0 : n = 0
  · simp [h0, jsStrictEqU, jsStrictEq]
  · simp [h0, jsStrictEqU, jsStrictEq]

lemma jsGtZero_num (n : ℕ) : jsGtZero (some (Json.num n)) = decide (0 < n) := by
  by_cases h0 : 0 < n
  · simp [jsGtZero, h0]
  · simp [jsGtZero, h0]

lemma validateThirdPartyE_ok (fs : List (String × Json)) :
    validateThirdPartyE (some (Json.obj fs)) = .ok (validateThirdParty (some (Json.obj fs))) := by
  by_cases hm : MerkleProof.validate (objLookup fs "merkleProof") = true
  · obtain ⟨gs, ks, ps, hmp, hk, hks, hp, hps⟩ := (MerkleProof.validate_spec _).mp hm
    rw [validateThirdPartyE, validateThirdParty]
    rw [show getPropE (some (Json.obj fs)) "merkleProof" =
        Except.ok (objLookup fs "merkleProof") from rfl]
    rw [show jsGet (some (Json.obj fs)) "merkleProof" = objLookup fs "merkleProof" from rfl]
    rw [exceptOkBind, hmp]
    rw [hmp] at hm
    simp only [hm, Bool.not_true, Bool.false_eq_true, if_false]
    rw [show getPropE (some (Json.obj gs)) "hashingKeys" =
        Except.ok (objLookup gs "hashingKeys") from rfl, hk]
    rw [exceptOkBind]
    rw [show getLengthE (some (Json.arr ks)) =
        Except.ok (some (Json.num ks.length)) from rfl]
    rw [exceptOkBind, jsStrictEqU_num_zero]
    rw [show (jsArr (jsGet (some (Json.obj gs)) "hashingKeys")).getD [] = ks by
      simp [jsGet, hk, jsArr]]
    cases hk0 : (ks.length == 0) with
    | true => rfl
    | false =>
      simp only [Bool.false_eq_true, if_false]
      rw [show getPropE (some (Json.obj gs)) "proof" =
          Except.ok (objLookup gs "proof") from rfl, hp]
      rw [exceptOkBind]
      rw [show getLengthE (some (Json.arr ps)) =
          Except.ok (some (Json.num ps.length)) from rfl]
      rw [exceptOkBind, jsGtZero_num]
      rw [show (jsArr (jsGet (some (Json.obj gs)) "proof")).getD [] = ps by
        simp [jsGet, hp, jsArr]]
      rfl
  · have hmf : MerkleProof.validate (objLookup fs "merkleProof") = false := by simpa using hm
    rw [validateThirdPartyE, validateThirdParty]
    rw [show getPropE (some (Json.obj fs)) "merkleProof" =
        Except.ok (objLookup fs "merkleProof") from rfl]
    rw [show jsGet (some (Json.obj fs)) "merkleProof" = objLookup fs "merkleProof" from rfl]
    rw [exceptOkBind]
    simp only [hmf, Bool.not_false, if_true]
    rfl

lemma codeOf_isNull (e : Json) (v : Json) (h : codeOf e = some v) : isNull e = false := by
  cases e <;> simp_all [codeOf, jsGet, isNull]

/-- The exception-aware validator never throws and agrees with the pure
validator on every input. -/
lemma validateE_agrees (w : JsVal) : validateE w = .ok (Wearable.validate w) := by
  by_cases hs : wearableSchemaValidator w = true
  · obtain ⟨fs, rfl, hf⟩ := (wearableSchemaValidator_spec w).mp hs
    obtain ⟨-, -, -, -, -, hi, -⟩ := wearableSchemaFields_parts fs hf
    obtain ⟨xs, hxs, -, hall⟩ := i18nCheck_spec fs hi
    have hnn : ∀ e ∈ xs, isNull e = false := fun e he => by
      obtain ⟨s, hcs⟩ := I18N.code_str e (hall e he)
      exact codeOf_isNull e _ hcs
    rw [validateE, Wearable.validate]
    simp only [hs, Bool.not_true, Bool.false_eq_true, if_false, Bool.true_and]
    rw [show getPropE (some (Json.obj fs)) "i18n" =
        Except.ok (objLookup fs "i18n") from rfl, hxs]
    rw [exceptOkBind]
    rw [show validateDuplicatedLocalesE (some (Json.arr xs)) = dupGoE xs 0 xs from rfl]
    rw [dupGoE_ok xs hnn xs hnn 0]
    rw [exceptOkBind]
    rw [show (jsArr (jsGet (some (Json.obj fs)) "i18n")).getD [] = xs by
      simp [jsGet, hxs, jsArr]]
    rw [show validateDuplicatedLocales xs = everyIdxGo (fun index e =>
        jsFindIndex (fun e2 => jsStrictEqU (codeOf e2) (codeOf e)) xs == some index)
        0 xs from rfl]
    cases hd : everyIdxGo (fun index e =>
        jsFindIndex (fun e2 => jsStrictEqU (codeOf e2) (codeOf e)) xs == some index) 0 xs with
    | false => rfl
    | true =>
      simp only [Bool.not_true, Bool.false_eq_true, if_false, Bool.true_and]
      rw [show getPropE (some (Json.obj fs)) "rarity" =
          Except.ok (objLookup fs "rarity") from rfl]
      rw [exceptOkBind]
      rw [show getPropE (some (Json.obj fs)) "collectionAddress" =
          Except.ok (objLookup fs "collectionAddress") from rfl]
      rw [exceptOkBind]
      rw [validateThirdPartyE_ok fs]
      rw [exceptOkBind]
      rfl
  · have hsf : wearableSchemaValidator w = false := by simpa using hs
    rw [validateE, Wearable.validate]
    simp only [hsf, Bool.not_false, if_true, Bool.false_and]
    rfl

lemma reqStr_isSome (fs : List (String × Json)) (k : String) (h : reqStr fs k = true) :
    (objLookup fs k).isSome = true := by
  rw [reqStr] at h
  split at h
  next s heq => rw [heq]; rfl
  next => simp at h

/-! Claim theorems. -/

/-- C1: Wearable.validate accepts a value exactly when it passes the
structural schema validator, its i18n locale codes are pairwise distinct,
and exactly one of the standard and third-party checks holds; it rejects
when both hold or neither holds. -/
theorem wearable_validate_iff (w : JsVal) :
    Wearable.validate w = true ↔
      wearableSchemaValidator w = true ∧
      (((jsArr (jsGet w "i18n")).getD []).map codeOf).Nodup ∧
      ((isStandard w = true ∧ isThirdParty w = false) ∨
       (isStandard w = false ∧ isThirdParty w = true)) := by
  rw [Wearable.validate]
  simp only [Bool.and_eq_true]
  constructor
  · rintro ⟨⟨hs, hd⟩, hx⟩
    refine ⟨hs, ?_, ?_⟩
    · obtain ⟨fs, rfl, hf⟩ := (wearableSchemaValidator_spec _).mp hs
      obtain ⟨-, -, -, -, -, hi, -⟩ := wearableSchemaFields_parts fs hf
      obtain ⟨xs, hxs, -, -⟩ := i18nCheck_spec fs hi
      have hxs2 : (jsArr (jsGet (some (Json.obj fs)) "i18n")).getD [] = xs := by
        simp [jsGet, hxs, jsArr]
      rw [hxs2] at hd ⊢
      exact (validateDuplicatedLocales_iff_nodup xs (codes_str_of_fields fs xs hf hxs)).mp hd
    · have hx2 := (XOR_eq_true _ _).mp hx
      simpa [isStandard, isThirdParty] using hx2
  · rintro ⟨hs, hnod, hx⟩
    refine ⟨⟨hs, ?_⟩, ?_⟩
    · obtain ⟨fs, rfl, hf⟩ := (wearableSchemaValidator_spec _).mp hs
      obtain ⟨-, -, -, -, -, hi, -⟩ := wearableSchemaFields_parts fs hf
      obtain ⟨xs, hxs, -, -⟩ := i18nCheck_spec fs hi
      have hxs2 : (jsArr (jsGet (some (Json.obj fs)) "i18n")).getD [] = xs := by
        simp [jsGet, hxs, jsArr]
      rw [hxs2] at hnod ⊢
      exact (validateDuplicatedLocales_iff_nodup xs (codes_str_of_fields fs xs hf hxs)).mpr hnod
    · rw [XOR_eq_true]
      simpa [isStandard, isThirdParty] using hx

/-- C3: the standard-wearable check holds exactly when rarity passes the
rarity enum validator and collectionAddress is a non-empty string, for any
collectionAddress of its declared runtime type (absent, null, or a
string). -/
theorem standard_check_iff (rarity ca : JsVal)
    (h : ca = none ∨ ca = some Json.null ∨ ∃ s, ca = some (Json.str s)) :
    validateStandardWearable rarity ca = true ↔
      (Rarity.validate rarity = true ∧ ∃ s, ca = some (Json.str s) ∧ s ≠ "") := by
  rw [validateStandardWearable, Bool.and_eq_true]
  rcases h with rfl | rfl | ⟨s, rfl⟩
  · simp [jsTruthy]
  · simp [jsTruthy]
  · constructor
    · rintro ⟨hr, ht⟩
      refine ⟨hr, s, rfl, ?_⟩
      simpa [jsTruthy] using ht
    · rintro ⟨hr, s2, hs2, hne⟩
      have hss : s = s2 := Json.str.inj (Option.some.inj hs2)
      subst hss
      exact ⟨hr, by simpa [jsTruthy] using hne⟩

/-- Witness for C3 at a concrete valid rarity and collection address. -/
theorem standard_check_iff_witness :
    validateStandardWearable (some (Json.str "common")) (some (Json.str "0xabc")) = true :=
  (standard_check_iff (some (Json.str "common")) (some (Json.str "0xabc"))
    (Or.inr (Or.inr ⟨"0xabc", rfl⟩))).mpr ⟨by decide, "0xabc", rfl, by decide⟩

/-- C4: the third-party check holds exactly when the merkle proof passes
structural validation, its hashing-key list is non-empty, every hashing
key is an own property of the wearable, and its proof list is
non-empty. -/
theorem third_party_check_iff (w : JsVal) :
    isThirdParty w = true ↔
      (MerkleProof.validate (jsGet w "merkleProof") = true ∧
       ∃ gs ks ps, jsGet w "merkleProof" = some (Json.obj gs) ∧
         objLookup gs "hashingKeys" = some (Json.arr ks) ∧
         objLookup gs "proof" = some (Json.arr ps) ∧
         ks ≠ [] ∧ (∀ k ∈ ks, hasOwnProp w k = true) ∧ ps ≠ []) := by
  rw [show isThirdParty w = validateThirdParty w from rfl, validateThirdParty_spec]
  constructor
  · rintro ⟨gs, ks, ps, hmp, hk, hks, hp, hps, hne, hall, hpne⟩
    exact ⟨(MerkleProof.validate_spec _).mpr ⟨gs, ks, ps, hmp, hk, hks, hp, hps⟩,
      gs, ks, ps, hmp, hk, hp, hne, hall, hpne⟩
  · rintro ⟨hm, gs, ks, ps, hmp, hk, hp, hne, hall, hpne⟩
    obtain ⟨gs2, ks2, ps2, hmp2, hk2, hks2, hp2, hps2⟩ := (MerkleProof.validate_spec _).mp hm
    rw [hmp] at hmp2
    obtain rfl : gs2 = gs := (Json.obj.inj (Option.some.inj hmp2)).symm
    rw [hk] at hk2
    obtain rfl : ks2 = ks := (Json.arr.inj (Option.some.inj hk2)).symm
    rw [hp] at hp2
    obtain rfl : ps2 = ps := (Json.arr.inj (Option.some.inj hp2)).symm
    exact ⟨_, _, _, hmp, hk, hks2, hp, hps2, hne, hall, hpne⟩

/-- C5: an input whose i18n list carries two entries with the same locale
code is rejected, regardless of every other field. -/
theorem validate_false_of_dup_locale (w : JsVal) (l : List Json) (i j : ℕ)
    (hl : jsArr (jsGet w "i18n") = some l)
    (hi : i < l.length) (hj : j < l.length) (hne : i ≠ j)
    (heq : codeOf (l.get ⟨i, hi⟩) = codeOf (l.get ⟨j, hj⟩)) :
    Wearable.validate w = false := by
  by_cases hs : wearableSchemaValidator w = true
  · obtain ⟨fs, rfl, hf⟩ := (wearableSchemaValidator_spec _).mp hs
    obtain ⟨-, -, -, -, -, hic, -⟩ := wearableSchemaFields_parts fs hf
    obtain ⟨xs, hxs0, -, -⟩ := i18nCheck_spec fs hic
    have hxs : objLookup fs "i18n" = some (Json.arr l) := by
      rw [show jsGet (some (Json.obj fs)) "i18n" = objLookup fs "i18n" from rfl, hxs0] at hl
      have hxl : xs = l := by simpa [jsArr] using hl
      rw [← hxl]
      exact hxs0
    have hnodup : ¬ (l.map codeOf).Nodup := by
      intro hn
      rw [List.nodup_iff_getElem?_ne_getElem?] at hn
      have hmap : ∀ (a : ℕ) (ha : a < l.length),
          (l.map codeOf)[a]? = some (codeOf (l.get ⟨a, ha⟩)) := by
        intro a ha
        simp [List.getElem?_eq_getElem ha]
      rcases Nat.lt_or_ge i j with hij | hij
      · exact hn i j hij (by simpa using hj)
          (by rw [hmap i hi, hmap j hj, heq])
      · have hji : j < i := by omega
        exact hn j i hji (by simpa using hi)
          (by rw [hmap j hj, hmap i hi, heq])
    have hdup : validateDuplicatedLocales l = false := by
      by_contra hc
      have hdt : validateDuplicatedLocales l = true := by simpa using hc
      exact hnodup
        ((validateDuplicatedLocales_iff_nodup l (codes_str_of_fields fs l hf hxs)).mp hdt)
    rw [Wearable.validate]
    rw [show (jsArr (jsGet (some (Json.obj fs)) "i18n")).getD [] = l by
      simp [jsGet, hxs, jsArr]]
    rw [hdup]
    simp
  · have hsf : wearableSchemaValidator w = false := by simpa using hs
    rw [Wearable.validate, hsf]
    simp

/-- Witness for C5: the concrete wearable exDup duplicates the locale en
and is rejected. -/
theorem validate_false_of_dup_locale_witness : Wearable.validate exDup = false :=
  validate_false_of_dup_locale exDup exDupI18n 0 1 rfl (by decide) (by decide)
    (by decide) rfl

/-- C2 (amended): every accepted wearable satisfies exactly one of the two
semantic variant checks: the standard check, with a valid rarity constant
and a non-empty collectionAddress string, or the third-party check; the
validator does not enforce absence of the fields of the other variant. -/
theorem accepted_variant_dichotomy (w : JsVal) (h : Wearable.validate w = true) :
    ((∃ s, jsGet w "rarity" = some (Json.str s) ∧ s ∈ Rarity.values) ∧
     (∃ s, jsGet w "collectionAddress" = some (Json.str s) ∧ s ≠ "") ∧
     isThirdParty w = false) ∨
    (isThirdParty w = true ∧ isStandard w = false) := by
  rw [Wearable.validate] at h
  simp only [Bool.and_eq_true] at h
  obtain ⟨⟨hs, -⟩, hx⟩ := h
  rcases (XOR_eq_true _ _).mp hx with ⟨hstd, htp⟩ | ⟨hstd, htp⟩
  · left
    rw [validateStandardWearable, Bool.and_eq_true] at hstd
    obtain ⟨hr, hca⟩ := hstd
    refine ⟨(enumValidate_spec _ _).mp hr, ?_, htp⟩
    obtain ⟨fs, rfl, hf⟩ := (wearableSchemaValidator_spec _).mp hs
    have hj : jsGet (some (Json.obj fs)) "collectionAddress" =
        objLookup fs "collectionAddress" := rfl
    rcases ca_shape_of_fields fs hf with hnone | hnull | ⟨s, hstr2⟩
    · rw [hj, hnone] at hca
      simp [jsTruthy] at hca
    · rw [hj, hnull] at hca
      simp [jsTruthy] at hca
    · refine ⟨s, by rw [hj, hstr2], ?_⟩
      rw [hj, hstr2] at hca
      simpa [jsTruthy] using hca
  · right
    exact ⟨htp, by simpa [isStandard] using hstd⟩

/-- Witness for C2 at the concrete standard wearable exStd. -/
theorem accepted_variant_dichotomy_witness :
    ((∃ s, jsGet exStd "rarity" = some (Json.str s) ∧ s ∈ Rarity.values) ∧
     (∃ s, jsGet exStd "collectionAddress" = some (Json.str s) ∧ s ≠ "") ∧
     isThirdParty exStd = false) ∨
    (isThirdParty exStd = true ∧ isStandard exStd = false) :=
  accepted_variant_dichotomy exStd (by decide)

/-- C2 (counterexample): exCex is accepted, yet it fits neither claimed
shape: it has the standard fields but also carries a content record, and
it has no valid merkle proof. -/
theorem accepted_not_shape_cex :
    Wearable.validate exCex = true ∧
    ¬((jsGet exCex "rarity").isSome = true ∧ (jsGet exCex "collectionAddress").isSome = true ∧
      (jsGet exCex "merkleProof").isNone = true ∧ (jsGet exCex "content").isNone = true) ∧
    ¬(isThirdParty exCex = true ∧ (jsGet exCex "rarity").isNone = true ∧
      (jsGet exCex "collectionAddress").isNone = true) := by
  decide

/-- C6: each enumeration validator accepts exactly the declared member
strings and rejects every other value, including every non-string. -/
theorem enum_validators_iff :
    (∀ v, Network.validate v = true ↔ ∃ s, v = some (Json.str s) ∧ s ∈ Network.values) ∧
    (∀ v, NFTCategory.validate v = true ↔
      ∃ s, v = some (Json.str s) ∧ s ∈ NFTCategory.values) ∧
    (∀ v, PropsCategory.validate v = true ↔
      ∃ s, v = some (Json.str s) ∧ s ∈ PropsCategory.values) :=
  ⟨fun v => enumValidate_spec _ v, fun v => enumValidate_spec _ v,
   fun v => enumValidate_spec _ v⟩

/-- C7: under JavaScript property-access error semantics, Wearable.validate
never throws: on every input the exception-aware evaluation returns the
pure verdict, every failure path included. -/
theorem validate_never_throws (w : JsVal) :
    validateE w = Except.ok (Wearable.validate w) :=
  validateE_agrees w

/-- C9: every accepted value satisfies the declared schema constraints:
the required top-level fields are present, i18n and data.representations
are non-empty, and the data block carries only the five declared keys. -/
theorem accepted_satisfies_schema (w : JsVal) (h : Wearable.validate w = true) :
    ∃ fs, w = some (Json.obj fs) ∧
      (objLookup fs "id").isSome = true ∧ (objLookup fs "description").isSome = true ∧
      (objLookup fs "name").isSome = true ∧ (objLookup fs "thumbnail").isSome = true ∧
      (objLookup fs "image").isSome = true ∧
      (∃ xs, objLookup fs "i18n" = some (Json.arr xs) ∧ 1 ≤ xs.length) ∧
      (∃ dfs, objLookup fs "data" = some (Json.obj dfs) ∧
        (∃ reps, objLookup dfs "representations" = some (Json.arr reps) ∧ 1 ≤ reps.length) ∧
        ∀ kv ∈ dfs, kv.1 ∈ dataKeys) := by
  rw [Wearable.validate] at h
  simp only [Bool.and_eq_true] at h
  obtain ⟨⟨hs, -⟩, -⟩ := h
  obtain ⟨fs, rfl, hf⟩ := (wearableSchemaValidator_spec _).mp hs
  obtain ⟨h1, h2, h3, h4, h5, hic, hdc, -⟩ := wearableSchemaFields_parts fs hf
  obtain ⟨xs, hxs, hxne, -⟩ := i18nCheck_spec fs hic
  obtain ⟨dfs, hdfs, ⟨reps, hreps, hrne⟩, hkeys⟩ := dataCheck_spec fs hdc
  exact ⟨fs, rfl, reqStr_isSome fs _ h1, reqStr_isSome fs _ h2, reqStr_isSome fs _ h3,
    reqStr_isSome fs _ h4, reqStr_isSome fs _ h5,
    ⟨xs, hxs, Nat.one_le_iff_ne_zero.mpr (fun hz => hxne (List.length_eq_zero.mp hz))⟩,
    ⟨dfs, hdfs,
      ⟨reps, hreps, Nat.one_le_iff_ne_zero.mpr (fun hz => hrne (List.length_eq_zero.mp hz))⟩,
      hkeys⟩⟩

/-- Witness for C9 at the concrete standard wearable exStd. -/
theorem accepted_satisfies_schema_witness :
    ∃ fs, exStd = some (Json.obj fs) ∧
      (objLookup fs "id").isSome = true ∧ (objLookup fs "description").isSome = true ∧
      (objLookup fs "name").isSome = true ∧ (objLookup fs "thumbnail").isSome = true ∧
      (objLookup fs "image").isSome = true ∧
      (∃ xs, objLookup fs "i18n" = some (Json.arr xs) ∧ 1 ≤ xs.length) ∧
      (∃ dfs, objLookup fs "data" = some (Json.obj dfs) ∧
        (∃ reps, objLookup dfs "representations" = some (Json.arr reps) ∧ 1 ≤ reps.length) ∧
        ∀ kv ∈ dfs, kv.1 ∈ dataKeys) :=
  accepted_satisfies_schema exStd (by decide)

/-- C10: for every accepted value, exactly one of the exported type guards
isStandard and isThirdParty returns true. -/
theorem accepted_exactly_one_guard (w : JsVal) (h : Wearable.validate w = true) :
    (isStandard w = true ∧ isThirdParty w = false) ∨
    (isStandard w = false ∧ isThirdParty w = true) := by
  rw [Wearable.validate] at h
  simp only [Bool.and_eq_true] at h
  have hx := (XOR_eq_true _ _).mp h.2
  simpa [isStandard, isThirdParty] using hx

/-- Witness for C10 at the concrete standard wearable exStd. -/
theorem accepted_exactly_one_guard_witness :
    (isStandard exStd = true ∧ isThirdParty exStd = false) ∨
    (isStandard exStd = false ∧ isThirdParty exStd = true) :=
  accepted_exactly_one_guard exStd (by decide)

/-- C8 (amended): adding a schema-conforming content record of string
values to an accepted standard wearable that lacks content keeps it
accepted, provided no hashing key of its merkle proof names the content
property; the runtime validator itself never checks content absence. -/
theorem content_addition_preserved (fs c : List (String × Json))
    (hval : Wearable.validate (some (Json.obj fs)) = true)
    (hstd : isStandard (some (Json.obj fs)) = true)
    (hnoc : objLookup fs "content" = none)
    (hc : (c.all fun kv => isStr kv.2) = true)
    (hkeys : ∀ gs ks, objLookup fs "merkleProof" = some (Json.obj gs) →
        objLookup gs "hashingKeys" = some (Json.arr ks) → Json.str "content" ∉ ks) :
    Wearable.validate (some (Json.obj (fs ++ [("content", Json.obj c)]))) = true := by
  have hlook : ∀ k : String, k ≠ "content" →
      objLookup (fs ++ [("content", Json.obj c)]) k = objLookup fs k :=
    fun k hk => objLookup_append_of_ne fs k "content" (Json.obj c) hk
  have hcontent : objLookup (fs ++ [("content", Json.obj c)]) "content" =
      some (Json.obj c) :=
    objLookup_append_self fs "content" (Json.obj c) hnoc
  have l1 := hlook "id" (by decide)
  have l2 := hlook "description" (by decide)
  have l3 := hlook "name" (by decide)
  have l4 := hlook "thumbnail" (by decide)
  have l5 := hlook "image" (by decide)
  have l6 := hlook "i18n" (by decide)
  have l7 := hlook "data" (by decide)
  have l8 := hlook "collectionAddress" (by decide)
  have l9 := hlook "rarity" (by decide)
  have l10 := hlook "metrics" (by decide)
  have l11 := hlook "merkleProof" (by decide)
  rw [Wearable.validate] at hval
  simp only [Bool.and_eq_true] at hval
  obtain ⟨⟨hs, hd⟩, hx⟩ := hval
  have hf : wearableSchemaFields fs = true := by
    obtain ⟨fs2, heq, hf2⟩ := (wearableSchemaValidator_spec _).mp hs
    have hfs : fs = fs2 := Json.obj.inj (Option.some.inj heq)
    rw [← hfs] at hf2
    exact hf2
  have hstd2 : validateStandardWearable (jsGet (some (Json.obj fs)) "rarity")
      (jsGet (some (Json.obj fs)) "collectionAddress") = true := by
    simpa [isStandard] using hstd
  have htp : validateThirdParty (some (Json.obj fs)) = false := by
    cases htp0 : validateThirdParty (some (Json.obj fs)) with
    | false => rfl
    | true =>
      rw [hstd2, htp0] at hx
      simp [XOR] at hx
  -- schema passes on the extended field list
  have e1 : reqStr (fs ++ [("content", Json.obj c)]) "id" = reqStr fs "id" := by
    simp only [reqStr]; rw [l1]
  have e2 : reqStr (fs ++ [("content", Json.obj c)]) "description" =
      reqStr fs "description" := by
    simp only [reqStr]; rw [l2]
  have e3 : reqStr (fs ++ [("content", Json.obj c)]) "name" = reqStr fs "name" := by
    simp only [reqStr]; rw [l3]
  have e4 : reqStr (fs ++ [("content", Json.obj c)]) "thumbnail" =
      reqStr fs "thumbnail" := by
    simp only [reqStr]; rw [l4]
  have e5 : reqStr (fs ++ [("content", Json.obj c)]) "image" = reqStr fs "image" := by
    simp only [reqStr]; rw [l5]
  have e6 : i18nCheck (fs ++ [("content", Json.obj c)]) = i18nCheck fs := by
    simp only [i18nCheck]; rw [l6]
  have e7 : dataCheck (fs ++ [("content", Json.obj c)]) = dataCheck fs := by
    simp only [dataCheck]; rw [l7]
  have e8 : optOk (fs ++ [("content", Json.obj c)]) "collectionAddress"
      (fun v => isStr v || isNull v) = optOk fs "collectionAddress"
      (fun v => isStr v || isNull v) := by
    simp only [optOk]; rw [l8]
  have e9 : optOk (fs ++ [("content", Json.obj c)]) "rarity"
      (fun v => isNull v || Rarity.validate (some v)) = optOk fs "rarity"
      (fun v => isNull v || Rarity.validate (some v)) := by
    simp only [optOk]; rw [l9]
  have e10 : optOk (fs ++ [("content", Json.obj c)]) "metrics"
      (fun v => isNull v || Metrics.validate (some v)) = optOk fs "metrics"
      (fun v => isNull v || Metrics.validate (some v)) := by
    simp only [optOk]; rw [l10]
  have e11 : optOk (fs ++ [("content", Json.obj c)]) "merkleProof"
      (fun v => isNull v || MerkleProof.validate (some v)) = optOk fs "merkleProof"
      (fun v => isNull v || MerkleProof.validate (some v)) := by
    simp only [optOk]; rw [l11]
  have e12 : optOk (fs ++ [("content", Json.obj c)]) "content" contentOk = true := by
    simp only [optOk]
    rw [hcontent]
    have hco : contentOk (Json.obj c) = true := by simp [contentOk, isNull, hc]
    exact hco
  have hf2 : wearableSchemaFields (fs ++ [("content", Json.obj c)]) = true := by
    rw [wearableSchemaFields, e1, e2, e3, e4, e5, e6, e7, e8, e9, e10, e11, e12]
    rw [wearableSchemaFields] at hf
    simp only [Bool.and_eq_true] at hf ⊢
    tauto
  -- the unchanged reads
  have hi18neq : jsGet (some (Json.obj (fs ++ [("content", Json.obj c)]))) "i18n" =
      jsGet (some (Json.obj fs)) "i18n" := l6
  have hrar : jsGet (some (Json.obj (fs ++ [("content", Json.obj c)]))) "rarity" =
      jsGet (some (Json.obj fs)) "rarity" := l9
  have hcad : jsGet (some (Json.obj (fs ++ [("content", Json.obj c)])))
      "collectionAddress" = jsGet (some (Json.obj fs)) "collectionAddress" := l8
  -- the third-party check still fails
  have htp2 : validateThirdParty (some (Json.obj (fs ++ [("content", Json.obj c)]))) =
      false := by
    cases htpv : validateThirdParty (some (Json.obj (fs ++ [("content", Json.obj c)]))) with
    | false => rfl
    | true =>
      exfalso
      obtain ⟨gs, ks, ps, hmp, hk, hks, hp, hps, hne, hall, hpne⟩ :=
        (validateThirdParty_spec _).mp htpv
      rw [show jsGet (some (Json.obj (fs ++ [("content", Json.obj c)]))) "merkleProof" =
          objLookup (fs ++ [("content", Json.obj c)]) "merkleProof" from rfl, l11] at hmp
      have hnotin := hkeys gs ks hmp hk
      have hall2 : ∀ k ∈ ks, hasOwnProp (some (Json.obj fs)) k = true := by
        intro k hkmem
        have hik := hks k hkmem
        cases k with
        | str s =>
          have hsne : s ≠ "content" := fun hc2 => hnotin (hc2 ▸ hkmem)
          have hprev := hall (Json.str s) hkmem
          rw [show hasOwnProp (some (Json.obj (fs ++ [("content", Json.obj c)])))
              (Json.str s) = (objLookup (fs ++ [("content", Json.obj c)]) s).isSome
              from rfl, hlook s hsne] at hprev
          exact hprev
        | null | bool b | num n | arr xs | obj gs2 => simp [isStr] at hik
      have htrue : validateThirdParty (some (Json.obj fs)) = true :=
        (validateThirdParty_spec _).mpr ⟨gs, ks, ps, hmp, hk, hks, hp, hps, hne, hall2, hpne⟩
      rw [htrue] at htp
      exact absurd htp (by simp)
  rw [Wearable.validate]
  simp only [Bool.and_eq_true]
  refine ⟨⟨?_, ?_⟩, ?_⟩
  · exact (wearableSchemaValidator_spec _).mpr ⟨_, rfl, hf2⟩
  · rw [hi18neq]
    exact hd
  · rw [hrar, hcad, htp2, hstd2]
    rfl

/-- Witness for C8: adding a content record to exStd, whose merkle proof
is absent, keeps it accepted. -/
theorem content_addition_preserved_witness :
    Wearable.validate
      (some (Json.obj (exStdFields ++ [("content", Json.obj [("a", Json.str "b")])]))) =
      true :=
  content_addition_preserved exStdFields [("a", Json.str "b")] (by decide) (by decide)
    rfl (by decide)
    (fun gs ks hmp _ => by
      have hsome : (objLookup exStdFields "merkleProof").isSome = true := by
        rw [hmp]; rfl
      exact absurd hsome (by decide))

/-- C8 (counterexample): exTrap is accepted as standard and lacks content,
yet adding a schema-conforming content record flips validation to false,
because the record completes the merkle-proof hashing keys. -/
theorem content_addition_cex :
    Wearable.validate exTrap = true ∧ isStandard exTrap = true ∧
    isThirdParty exTrap = false ∧ (jsGet exTrap "content").isNone = true ∧
    (([("a", Json.str "b")] : List (String × Json)).all fun kv => isStr kv.2) = true ∧
    Wearable.validate
      (some (Json.obj (exTrapFields ++ [("content", Json.obj [("a", Json.str "b")])]))) =
      false := by
  decide
